import Mathlib

/-!
# Verification of the Notion → Sheets incremental sync core

A shallow embedding of `src/lambda_function.py`: the property extractor,
date normalizer, ISO-8601 parsing/formatting helpers, the delta-fetch
filter boundary, the row transformer, the upsert engine, and the
checkpoint logic of the Lambda handler, together with theorems checking
the specification's claims about them.

Python strings become `String`, dictionaries become association lists
with Python-dict semantics (insertion order preserved, assignment to an
existing key overwrites in place), `datetime` values become either their
civil components (`PyDateTime`) or an absolute instant in microseconds
since the Unix epoch (`Int`), and fallible code returns `Option`.
-/

namespace NotionSync

/-! ## Small string helpers -/

/-- Numeric value of a decimal digit character. -/
def digitVal (c : Char) : Nat := c.toNat - 48

/-- Consume exactly `n` decimal digits, returning their value and the rest.
Fails if a non-digit (or end of input) appears among the first `n` chars. -/
def takeFixedDigits : Nat → Nat → List Char → Option (Nat × List Char)
  | 0, acc, cs => some (acc, cs)
  | _ + 1, _, [] => none
  | n + 1, acc, c :: cs =>
      if c.isDigit then takeFixedDigits n (acc * 10 + digitVal c) cs else none

/-- Value of a digit string, most significant first. -/
def digitsToNat (ds : List Char) : Nat := ds.foldl (fun a c => a * 10 + digitVal c) 0

/-- Consume one expected character. -/
def expectChar (c : Char) : List Char → Option (List Char)
  | [] => none
  | c' :: cs => if c' = c then some cs else none

/-- The characters of `cs` strictly before the first occurrence of the
substring `sep`; all of `cs` if `sep` never occurs.  Models Python's
`value.split(sep, 1)[0]`. -/
def beforeSub (sep : List Char) : List Char → List Char
  | [] => []
  | c :: rest => if sep.isPrefixOf (c :: rest) then [] else c :: beforeSub sep rest

/-- `value.split("->", 1)[0]` from `normalize_date_value`. -/
def splitArrowHead (value : String) : String := String.mk (beforeSub ['-', '>'] value.data)

/-- Python `str.strip()` (on the ASCII whitespace set), implemented on
the character list so that proofs can evaluate it. -/
def strTrim (s : String) : String :=
  String.mk (((s.data.dropWhile Char.isWhitespace).reverse.dropWhile Char.isWhitespace).reverse)

/-! ## Civil calendar arithmetic

Conversions between a civil date and a count of days since the Unix
epoch (1970-01-01), used to model Python `datetime` instants. -/

/-- Gregorian leap-year rule. -/
def isLeapYear (y : Nat) : Bool := y % 4 = 0 && (y % 100 ≠ 0 || y % 400 = 0)

/-- Number of days in month `m` of year `y`. -/
def daysInMonth (y m : Nat) : Nat :=
  if m = 2 then (if isLeapYear y then 29 else 28)
  else if m = 4 ∨ m = 6 ∨ m = 9 ∨ m = 11 then 30
  else 31

/-- Days since 1970-01-01 of the civil date `y-m-d` (months 1-12). -/
def daysFromCivil (y : Int) (m d : Nat) : Int :=
  let y' : Int := if m ≤ 2 then y - 1 else y
  let era : Int := y'.fdiv 400
  let yoe : Int := y' - era * 400
  let mp : Nat := if 2 < m then m - 3 else m + 9
  let doy : Int := ((153 * mp + 2) / 5 : Nat) + (d : Int) - 1
  let doe : Int := yoe * 365 + yoe.fdiv 4 - yoe.fdiv 100 + doy
  era * 146097 + doe - 719468

/-- Civil date `(y, m, d)` of the day `z` days after 1970-01-01. -/
def civilFromDays (z : Int) : Int × Nat × Nat :=
  let z' : Int := z + 719468
  let era : Int := z'.fdiv 146097
  let doe : Nat := (z' - era * 146097).toNat
  let yoe : Nat := (doe - doe / 1460 + doe / 36524 - doe / 146096) / 365
  let y : Int := (yoe : Int) + era * 400
  let doy : Nat := doe - (365 * yoe + yoe / 4 - yoe / 100)
  let mp : Nat := (5 * doy + 2) / 153
  let d : Nat := doy - (153 * mp + 2) / 5 + 1
  let m : Nat := if mp < 10 then mp + 3 else mp - 9
  (if m ≤ 2 then y + 1 else y, m, d)

/-! ## Python `datetime` values -/

/-- The civil components of a Python `datetime` as produced by
`datetime.fromisoformat`: a calendar date, a time of day, microseconds,
and an optional fixed UTC offset in microseconds (`none` = naive). -/
structure PyDateTime where
  year : Nat
  month : Nat
  day : Nat
  hour : Nat
  minute : Nat
  second : Nat
  micro : Nat
  offsetMicros : Option Int
  deriving Repr, DecidableEq

/-- The absolute instant of a `PyDateTime` in microseconds since the Unix
epoch.  A naive value is taken at UTC: the Lambda runtime's local zone,
which is what `datetime.astimezone` falls back to. -/
def toUtcMicros (dt : PyDateTime) : Int :=
  let days := daysFromCivil dt.year dt.month dt.day
  let secs := days * 86400 + dt.hour * 3600 + dt.minute * 60 + dt.second
  let localMicros := secs * 1000000 + dt.micro
  match dt.offsetMicros with
  | none => localMicros
  | some off => localMicros - off

/-- Microseconds in one day. -/
def microsPerDay : Int := 86400000000

/-- The instant of `datetime.min` (0001-01-01T00:00:00), in microseconds
since the Unix epoch. -/
def minDatetimeMicros : Int := daysFromCivil 1 1 1 * microsPerDay

/-- The instant of `datetime.max` (9999-12-31T23:59:59.999999). -/
def maxDatetimeMicros : Int := daysFromCivil 9999 12 31 * microsPerDay + 86399999999

/-- A fractional-seconds tail after `.` or `,`: one or more digits, of
which the first six are kept (`fromisoformat` truncates the rest). -/
def parseFracTail (cs : List Char) : Option (Nat × List Char) :=
  let (ds, rest) := cs.span Char.isDigit
  if ds.length = 0 then none
  else
    let d6 := ds.take 6
    some (digitsToNat d6 * 10 ^ (6 - d6.length), rest)

/-- The magnitude of a numeric UTC offset, in microseconds: two-digit
hours, then optionally minutes, seconds and a fraction, in extended
(`HH:MM:SS.f`) or basic (`HHMMSS.f`) form.  `fromisoformat` does not
range-check the individual fields (`+05:75` is accepted and normalized);
only the total is bounded, by the caller. -/
def parseOffsetMagnitude (cs : List Char) : Option Int := do
  let toM : Nat → Nat → Nat → Nat → Int := fun h m s f =>
    ((h * 3600 + m * 60 + s) * 1000000 + f : Nat)
  let (h, cs) ← takeFixedDigits 2 0 cs
  match cs with
  | [] => pure (toM h 0 0 0)
  | '.' :: r => do
      let (f, cs) ← parseFracTail r
      if cs = [] then pure (toM h 0 0 f) else none
  | ',' :: r => do
      let (f, cs) ← parseFracTail r
      if cs = [] then pure (toM h 0 0 f) else none
  | ':' :: r => do
      let (m, cs) ← takeFixedDigits 2 0 r
      match cs with
      | [] => pure (toM h m 0 0)
      | '.' :: r2 => do
          let (f, cs) ← parseFracTail r2
          if cs = [] then pure (toM h m 0 f) else none
      | ',' :: r2 => do
          let (f, cs) ← parseFracTail r2
          if cs = [] then pure (toM h m 0 f) else none
      | ':' :: r2 => do
          let (s, cs) ← takeFixedDigits 2 0 r2
          match cs with
          | [] => pure (toM h m s 0)
          | '.' :: r3 => do
              let (f, cs) ← parseFracTail r3
              if cs = [] then pure (toM h m s f) else none
          | ',' :: r3 => do
              let (f, cs) ← parseFracTail r3
              if cs = [] then pure (toM h m s f) else none
          | _ => none
      | _ => none
  | _ => do
      let (m, cs) ← takeFixedDigits 2 0 cs
      match cs with
      | [] => pure (toM h m 0 0)
      | '.' :: r2 => do
          let (f, cs) ← parseFracTail r2
          if cs = [] then pure (toM h m 0 f) else none
      | ',' :: r2 => do
          let (f, cs) ← parseFracTail r2
          if cs = [] then pure (toM h m 0 f) else none
      | _ => do
          let (s, cs) ← takeFixedDigits 2 0 cs
          match cs with
          | [] => pure (toM h m s 0)
          | '.' :: r3 => do
              let (f, cs) ← parseFracTail r3
              if cs = [] then pure (toM h m s f) else none
          | ',' :: r3 => do
              let (f, cs) ← parseFracTail r3
              if cs = [] then pure (toM h m s f) else none
          | _ => none

/-- A trailing timezone designator: `Z`, or a sign followed by a numeric
offset whose magnitude must stay strictly below 24 hours. -/
def parseOffsetPart : List Char → Option Int
  | 'Z' :: rest => if rest = [] then some 0 else none
  | '+' :: rest =>
      (parseOffsetMagnitude rest).bind fun v =>
        if v < microsPerDay then some v else none
  | '-' :: rest =>
      (parseOffsetMagnitude rest).bind fun v =>
        if v < microsPerDay then some (-v) else none
  | _ => none

/-- The time-of-day tail of `fromisoformat` (everything after the
separator character): two-digit hour, then optionally minutes and seconds
in extended (`HH:MM:SS`) or basic (`HHMMSS`) form, a fractional part
after the hour, minute or second field (a `fromisoformat` quirk: the
fraction always lands in the microsecond component), and a trailing
offset.  Returns `(hour, minute, second, micro, offset)`. -/
def parseTimeTail (cs : List Char) : Option (Nat × Nat × Nat × Nat × Option Int) := do
  let fracThen : Nat → Nat → Nat → List Char →
      Option (Nat × Nat × Nat × Nat × Option Int) := fun h m s r => do
    let (f, cs) ← parseFracTail r
    match cs with
    | [] => some (h, m, s, f, none)
    | off => do pure (h, m, s, f, some (← parseOffsetPart off))
  let (h, cs) ← takeFixedDigits 2 0 cs
  if 23 < h then none else
  match cs with
  | [] => some (h, 0, 0, 0, none)
  | '.' :: r => fracThen h 0 0 r
  | ',' :: r => fracThen h 0 0 r
  | ':' :: r => do
      let (m, cs) ← takeFixedDigits 2 0 r
      if 59 < m then none else
      match cs with
      | [] => some (h, m, 0, 0, none)
      | '.' :: r2 => fracThen h m 0 r2
      | ',' :: r2 => fracThen h m 0 r2
      | ':' :: r2 => do
          let (s, cs) ← takeFixedDigits 2 0 r2
          if 59 < s then none else
          match cs with
          | [] => some (h, m, s, 0, none)
          | '.' :: r3 => fracThen h m s r3
          | ',' :: r3 => fracThen h m s r3
          | off => do pure (h, m, s, 0, some (← parseOffsetPart off))
      | off => do pure (h, m, 0, 0, some (← parseOffsetPart off))
  | c :: _ =>
      if c.isDigit then do
        let (m, cs) ← takeFixedDigits 2 0 cs
        if 59 < m then none else
        match cs with
        | [] => some (h, m, 0, 0, none)
        | '.' :: r2 => fracThen h m 0 r2
        | ',' :: r2 => fracThen h m 0 r2
        | c2 :: _ =>
            if c2.isDigit then do
              let (s, cs) ← takeFixedDigits 2 0 cs
              if 59 < s then none else
              match cs with
              | [] => some (h, m, s, 0, none)
              | '.' :: r3 => fracThen h m s r3
              | ',' :: r3 => fracThen h m s r3
              | off => do pure (h, m, s, 0, some (← parseOffsetPart off))
            else do pure (h, m, 0, 0, some (← parseOffsetPart cs))
      else do pure (h, 0, 0, 0, some (← parseOffsetPart cs))

/-- The day-of-week of a day count since the epoch, with Monday = 0
(1970-01-01 was a Thursday, index 3). -/
def dowOfDays (days : Int) : Nat := ((days + 3).emod 7).toNat

/-- `date._isoweek_to_gregorian`: ISO year/week/day to a civil date.
Week 53 is allowed only for years starting on a Thursday, or leap years
starting on a Wednesday; the computed date must stay within
`datetime`'s year range 1-9999. -/
def isoWeekToCivil (y w d : Nat) : Option (Nat × Nat × Nat) :=
  let jan1dow := dowOfDays (daysFromCivil y 1 1)
  let has53 : Bool := jan1dow = 3 || (isLeapYear y && jan1dow = 2)
  if w < 1 ∨ 53 < w ∨ (w = 53 ∧ ¬has53) ∨ d < 1 ∨ 7 < d then none
  else
    let jan4 := daysFromCivil y 1 4
    let week1monday := jan4 - dowOfDays jan4
    let days := week1monday + ((w - 1) * 7 + (d - 1) : Nat)
    if days < daysFromCivil 1 1 1 ∨ daysFromCivil 9999 12 31 < days then none
    else
      let c := civilFromDays days
      some (c.1.toNat, c.2.1, c.2.2)

/-- Attach an optional time tail to resolved civil date components:
no remaining input means midnight, otherwise one separator character (any
character, per `fromisoformat`) followed by a time. -/
def finishCivil (y m d : Nat) : List Char → Option PyDateTime
  | [] => some ⟨y, m, d, 0, 0, 0, 0, none⟩
  | _sep :: t =>
      (parseTimeTail t).map fun q => ⟨y, m, d, q.1, q.2.1, q.2.2.1, q.2.2.2.1, q.2.2.2.2⟩

/-- A month-day date with real-calendar validation, then the time tail. -/
def finishMonthDay (y m d : Nat) (rest : List Char) : Option PyDateTime :=
  if m < 1 ∨ 12 < m ∨ d < 1 ∨ daysInMonth y m < d then none
  else finishCivil y m d rest

/-- An ISO week date, converted to civil, then the time tail. -/
def finishWeek (y w d : Nat) (rest : List Char) : Option PyDateTime := do
  let (yy, mm, dd) ← isoWeekToCivil y w d
  finishCivil yy mm dd rest

/-- Model of `datetime.fromisoformat` (CPython 3.11+): a four-digit year,
then a month-day date in extended (`-MM-DD`) or basic (`MMDD`) form, or
an ISO week date (`-Www[-D]` / `Www[D]`); optionally any single separator
character and a time (`parseTimeTail`).  Ordinal dates are not supported,
matching CPython. -/
def pyFromIso (s : String) : Option PyDateTime := do
  let (y, cs) ← takeFixedDigits 4 0 s.data
  if y < 1 then none else
  match cs with
  | '-' :: 'W' :: r2 => do
      let (w, cs) ← takeFixedDigits 2 0 r2
      match cs with
      | '-' :: r3 => do
          let (d, cs) ← takeFixedDigits 1 0 r3
          finishWeek y w d cs
      | rest => finishWeek y w 1 rest
  | '-' :: r1 => do
      let (m, cs) ← takeFixedDigits 2 0 r1
      let cs ← expectChar '-' cs
      let (d, cs) ← takeFixedDigits 2 0 cs
      finishMonthDay y m d cs
  | 'W' :: r2 => do
      let (w, cs) ← takeFixedDigits 2 0 r2
      match cs with
      | c :: _ =>
          if c.isDigit then do
            let (d, cs) ← takeFixedDigits 1 0 cs
            finishWeek y w d cs
          else finishWeek y w 1 cs
      | [] => finishWeek y w 1 []
  | _ => do
      let (m, cs) ← takeFixedDigits 2 0 cs
      let (d, cs) ← takeFixedDigits 2 0 cs
      finishMonthDay y m d cs

/-- Model of `datetime.strptime(s, "%Y-%m-%d")`: an exactly-four-digit
year (CPython's `%Y` pattern), a 1-2 digit month and day, the whole
string consumed, real-calendar validation. -/
def strptimeDate (s : String) : Option (Nat × Nat × Nat) :=
  match takeFixedDigits 4 0 s.data with
  | none => none
  | some (y, cs) =>
    match expectChar '-' cs with
    | none => none
    | some cs =>
      let (mds, cs) := cs.span Char.isDigit
      if mds.length < 1 ∨ 2 < mds.length then none else
      match expectChar '-' cs with
      | none => none
      | some cs =>
        let (dds, cs) := cs.span Char.isDigit
        if dds.length < 1 ∨ 2 < dds.length ∨ cs ≠ [] then none else
        let m := digitsToNat mds
        let d := digitsToNat dds
        if y < 1 ∨ m < 1 ∨ 12 < m ∨ d < 1 ∨ daysInMonth y m < d then none
        else some (y, m, d)

/-! ## Source functions: date handling -/

/-- The `if s.endswith("Z"): s = s[:-1] + "+00:00"` rewrite that both
`parse_iso_datetime` and `normalize_date_value` apply before parsing. -/
def zfixTrailing (s : String) : String :=
  if s.data.getLast? = some 'Z' then s.dropRight 1 ++ "+00:00" else s

/-- `parse_iso_datetime` from the source: strip, rewrite a trailing `Z` to
`+00:00`, `datetime.fromisoformat`, `astimezone(timezone.utc)`.  Returns
the absolute instant in microseconds since the epoch, or `none` where the
Python raises: `ValueError` from the parse, or `OverflowError` from
`astimezone` when converting an aware value to UTC lands outside
`datetime`'s range (a naive value keeps its fields — the runtime's local
zone is UTC — and cannot overflow). -/
def parse_iso_datetime (s : String) : Option Int :=
  match pyFromIso (zfixTrailing (strTrim s)) with
  | none => none
  | some dt =>
      let t := toUtcMicros dt
      match dt.offsetMicros with
      | none => some t
      | some _ =>
          if minDatetimeMicros ≤ t ∧ t ≤ maxDatetimeMicros then some t else none

/-- Left-pad a number to two digits. -/
def pad2 (n : Nat) : String := if n < 10 then "0" ++ toString n else toString n

/-- Left-pad a number to four digits. -/
def pad4 (n : Nat) : String :=
  if n < 10 then "000" ++ toString n
  else if n < 100 then "00" ++ toString n
  else if n < 1000 then "0" ++ toString n
  else toString n

/-- `to_notion_iso` from the source: convert a UTC instant to
`YYYY-MM-DDTHH:MM:SSZ`, dropping the microsecond part
(`dt.replace(microsecond=0)` — the microsecond field is never negative,
so this floors the instant to the second). -/
def to_notion_iso (micros : Int) : String :=
  let secs := micros.fdiv 1000000
  let days := secs.fdiv 86400
  let sod := (secs - days * 86400).toNat
  let (ymd : Int × Nat × Nat) := civilFromDays days
  pad4 ymd.1.toNat ++ "-" ++ pad2 ymd.2.1 ++ "-" ++ pad2 ymd.2.2 ++ "T" ++
    pad2 (sod / 3600) ++ ":" ++ pad2 (sod % 3600 / 60) ++ ":" ++ pad2 (sod % 60) ++ "Z"

/-- A Notion property value as consumed by `extract_text_property`.
`Option String` fields model dictionary entries that may be missing or
`null` (`none`) or present (`some s`, possibly empty). -/
inductive PropertyValue where
  /-- `{"type": "title", "title": [...]}`, one `plain_text` per fragment. -/
  | title (parts : List String)
  /-- `{"type": "rich_text", "rich_text": [...]}`. -/
  | rich_text (parts : List String)
  /-- `{"type": "select", "select": null | {"name": ...}}`. -/
  | select (sel : Option (Option String))
  /-- `{"type": "multi_select", "multi_select": [{"name": ...}, ...]}`. -/
  | multi_select (arr : List (Option String))
  /-- `{"type": "status", "status": null | {"name": ...}}`. -/
  | status (st : Option (Option String))
  /-- `{"type": "date", "date": null | {"start": ..., "end": ...}}`. -/
  | date (d : Option (Option String × Option String))
  /-- Any other property type: falls through every branch. -/
  | unknown
  deriving Repr, DecidableEq

/-- A Notion page's `properties` dictionary. -/
abbrev Properties := List (String × PropertyValue)

/-- Dictionary lookup, `properties.get(prop_name)`. -/
def propGet (props : Properties) (name : String) : Option PropertyValue :=
  (props.find? (fun p => p.1 == name)).map (·.2)

/-- `extract_text_property` from the source. -/
def extract_text_property (props : Properties) (propName : String) : String :=
  match propGet props propName with
  | none => ""
  | some p =>
    match p with
    | .title parts => strTrim (String.join parts)
    | .rich_text parts => strTrim (String.join parts)
    | .select sel => ((sel.map (·.getD "")).getD "")
    | .multi_select arr =>
        String.intercalate ", "
          (arr.filterMap (fun o => o.bind (fun n => if n = "" then none else some n)))
    | .status st => ((st.map (·.getD "")).getD "")
    | .date d =>
        match d with
        | none => ""
        | some se =>
            let start := se.1.getD ""
            let stop := se.2.getD ""
            if stop ≠ "" then start ++ " -> " ++ stop else start
    | .unknown => ""

/-- `normalize_date_value` from the source. -/
def normalize_date_value (value : String) : String :=
  if value = "" then ""
  else
    let start := strTrim (splitArrowHead value)
    if start = "" then ""
    else
      let start := zfixTrailing start
      match pyFromIso start with
      | some dt => toString dt.month ++ "/" ++ toString dt.day ++ "/" ++ toString dt.year
      | none =>
        match strptimeDate (start.take 10) with
        | some ymd => toString ymd.2.1 ++ "/" ++ toString ymd.2.2 ++ "/" ++ toString ymd.1
        | none => start

/-! ## Source functions: A1 helpers -/

/-- `col_to_a1` from the source: 1-based column number to letters. -/
def col_to_a1 : Nat → String
  | 0 => ""
  | n + 1 => col_to_a1 (n / 26) ++ String.singleton (Char.ofNat (65 + n % 26))
decreasing_by exact Nat.lt_succ_of_le (Nat.div_le_self n 26)

/-- `a1_quote_sheet_name` from the source. -/
def a1_quote_sheet_name (sheetName : String) : String :=
  if [' ', '!', '\'', '"'].any (fun c => sheetName.contains c) then
    "'" ++ sheetName.replace "'" "''" ++ "'"
  else sheetName

/-! ## Row transformer -/

/-- A fetched Notion page as consumed by the handler's transform loop.
Each field holds the result of `page.get(key, "")` / `page.get("properties", {})`:
a missing entry appears as the empty default. -/
structure Page where
  id : String
  created_time : String
  last_edited_time : String
  properties : Properties
  deriving Repr, DecidableEq

/-- The configurable Notion property names (`NOTION_PROP_*`), one per
mapped column. -/
structure FieldConfig where
  company : String
  active : String
  add_date : String
  state : String
  process : String
  category : String
  hq : String
  opp_date : String
  contacted : String
  negotiation : String
  collaboration : String
  closed : String
  discover : String
  assess : String
  purchase : String
  pilot : String
  adopt : String
  deriving Repr, DecidableEq

/-- A sheet row: an ordered list of string cells. -/
abbrev Row := List String

/-- The body of the handler's per-page transform: one 20-cell row, first
cell the page id, then the created/edited timestamps, the text-typed
extractions, and the date-typed extractions passed through
`normalize_date_value`. -/
def transformPage (cfg : FieldConfig) (page : Page) : Row :=
  let props := page.properties
  [ page.id,
    page.created_time,
    page.last_edited_time,
    extract_text_property props cfg.company,
    extract_text_property props cfg.active,
    extract_text_property props cfg.add_date,
    extract_text_property props cfg.state,
    extract_text_property props cfg.process,
    extract_text_property props cfg.category,
    extract_text_property props cfg.hq,
    normalize_date_value (extract_text_property props cfg.opp_date),
    normalize_date_value (extract_text_property props cfg.contacted),
    normalize_date_value (extract_text_property props cfg.negotiation),
    normalize_date_value (extract_text_property props cfg.collaboration),
    normalize_date_value (extract_text_property props cfg.closed),
    normalize_date_value (extract_text_property props cfg.discover),
    normalize_date_value (extract_text_property props cfg.assess),
    normalize_date_value (extract_text_property props cfg.purchase),
    normalize_date_value (extract_text_property props cfg.pilot),
    normalize_date_value (extract_text_property props cfg.adopt) ]

/-- The handler's transform loop: `rows_data.append(...)` once per page,
in input order. -/
def rowsOf (cfg : FieldConfig) (pages : List Page) : List Row :=
  pages.map (transformPage cfg)

/-- One step of the handler's `max_last_edited` tracking: skip a falsy
`last_edited_time`, skip a parse failure, otherwise keep the strictly
larger instant. -/
def trackMax (m : Option Int) (page : Page) : Option Int :=
  if page.last_edited_time ≠ "" then
    match parse_iso_datetime page.last_edited_time with
    | some dt =>
        match m with
        | none => some dt
        | some mx => if dt > mx then some dt else some mx
    | none => m
  else m

/-- The maximum parsed `last_edited_time` over the batch, as tracked by
the handler's loop. -/
def maxLastEdited (pages : List Page) : Option Int :=
  pages.foldl trackMax none

/-! ## Upsert engine -/

/-- A Python dictionary from record id to 1-based sheet row, kept in
insertion order. -/
abbrev Index := List (String × Nat)

/-- `d[k]` / `k in d`. -/
def dictGet (d : Index) (k : String) : Option Nat :=
  (d.find? (fun p => p.1 == k)).map (·.2)

/-- `d[k] = v`: overwrite in place if the key exists, else append. -/
def dictInsert : Index → String → Nat → Index
  | [], k, v => [(k, v)]
  | p :: rest, k, v => if p.1 == k then (k, v) :: rest else p :: dictInsert rest k v

/-- `max(d.values())`, with 0 on an empty dictionary (the source only
calls it on a non-empty one). -/
def dictValuesMax (d : Index) : Nat := d.foldl (fun a p => Nat.max a p.2) 0

/-- `row[0]` of an upsert input row; the transform always produces
non-empty rows, so the default is never taken on real input. -/
def headKey (row : Row) : String := row.headD ""

/-- The evolving state of the `batch_upsert_rows` loop: the in-memory
index, the next free row, the accumulated range writes as
`(row position, row values)`, and the two counters. -/
structure UpsertState where
  idToRow : Index
  nextAppendRow : Nat
  updates : List (Nat × Row)
  updated : Nat
  appended : Nat
  deriving Repr, DecidableEq

/-- One iteration of the `for row in rows_data` loop. -/
def upsertStep (st : UpsertState) (row : Row) : UpsertState :=
  match dictGet st.idToRow (headKey row) with
  | some r =>
      { st with updates := st.updates ++ [(r, row)], updated := st.updated + 1 }
  | none =>
      { idToRow := dictInsert st.idToRow (headKey row) st.nextAppendRow
        nextAppendRow := st.nextAppendRow + 1
        updates := st.updates ++ [(st.nextAppendRow, row)]
        updated := st.updated
        appended := st.appended + 1 }

/-- The whole loop. -/
def upsertLoop (st : UpsertState) : List Row → UpsertState
  | [] => st
  | row :: rest => upsertLoop (upsertStep st row) rest

/-- `batch_upsert_rows` without the transport call: starting from the
index read off the sheet, `next_append_row = max(values)+1` (or 2 on an
empty index), then the loop. -/
def batchUpsertPlan (idToRow : Index) (rowsData : List Row) : UpsertState :=
  upsertLoop
    { idToRow := idToRow
      nextAppendRow := if idToRow.isEmpty then 2 else dictValuesMax idToRow + 1
      updates := []
      updated := 0
      appended := 0 }
    rowsData

/-- The A1 range string built for one row write:
`{sheet}!A{r}:{last_col}{r}`. -/
def rowRange (sheetNameQ lastCol : String) (r : Nat) : String :=
  sheetNameQ ++ "!A" ++ toString r ++ ":" ++ lastCol ++ toString r

/-- The `data` payload of the `batchUpdate` call: one single-row range
per accumulated write. -/
def planRanges (sheetNameQ lastCol : String) (updates : List (Nat × Row)) :
    List (String × Row) :=
  updates.map (fun w => (rowRange sheetNameQ lastCol w.1, w.2))

/-! ## The tabular store -/

/-- The data sheet's rows: list element `i` is sheet row `i + 2` (row 1
is the header). -/
abbrev Store := List Row

/-- The loop of `read_existing_id_to_row_index`: walk the id column from
sheet row 2, skip falsy cells, and set `mapping[str(v).strip()] = row`. -/
def readIndexLoop (m : Index) (pos : Nat) : Store → Index
  | [] => m
  | r :: rest =>
      let v := headKey r
      if v = "" then readIndexLoop m (pos + 1) rest
      else readIndexLoop (dictInsert m (strTrim v) pos) (pos + 1) rest

/-- `read_existing_id_to_row_index` on the store model. -/
def readIdToRowIndex (store : Store) : Index := readIndexLoop [] 2 store

/-- One `values.update`-style write of the batch at 1-based sheet row
`pos ≥ 2`: overwrite an existing row, or extend the sheet (padding any
gap with blank rows, as the Sheets grid would). -/
def storeSetRow (store : Store) (pos : Nat) (row : Row) : Store :=
  let i := pos - 2
  if i < store.length then store.set i row
  else store ++ List.replicate (i - store.length) [] ++ [row]

/-- Apply the batched writes in order. -/
def applyWrites (store : Store) (ws : List (Nat × Row)) : Store :=
  ws.foldl (fun s w => storeSetRow s w.1 w.2) store

/-- The sheet-side persistent state: the checkpoint cell `config!B2`, the
header row of the data sheet, and the data rows. -/
structure SheetState where
  checkpoint : String
  headerRow : List String
  data : Store
  deriving Repr, DecidableEq

/-- The handler's fixed header. -/
def defaultHeader : List String :=
  [ "notion_page_id", "created_time", "last_edited_time", "企業名", "Active Flag",
    "Add Date", "State", "Process of VCM", "Category", "HQ", "Opportunity Date",
    "Contacted Date", "In Negotiation Date", "In Collaboration Date", "Closed Date",
    "Discover Date", "Assess Date", "Purchase Date", "Pilot Date", "Adopt Date" ]

/-- `ensure_header_if_empty`: write the header only if the current header
cells are all blank. -/
def ensureHeaderIfEmpty (st : SheetState) (header : List String) : SheetState :=
  if st.headerRow.any (fun c => strTrim c ≠ "") then st
  else { st with headerRow := header }

/-- The structured success summary returned by the handler. -/
structure HandlerResult where
  delta_pages : Nat
  updated : Nat
  appended : Nat
  last_sync : String
  deriving Repr, DecidableEq

/-- `lambda_handler` with its I/O effects made explicit.  `cfgRes` is the
outcome of configuration loading (`_env` raising on a missing variable),
`fetchRes` the outcome of the delta fetch (a non-success status raising
`RuntimeError`), `batchApplied` the number of range writes the transport
actually applied before failing (`none` = the `batchUpdate` call
succeeded), and `now` the wall clock read when no timestamp was observed.
Every failure re-raises after logging, so the function returns the error
together with the sheet state as left behind. -/
def lambda_handler (st : SheetState) (cfgRes : Except String FieldConfig)
    (fetchRes : Except String (List Page)) (batchApplied : Option Nat) (now : Int) :
    Except String HandlerResult × SheetState :=
  match cfgRes with
  | .error e => (.error e, st)
  | .ok cfg =>
    match fetchRes with
    | .error e => (.error e, st)
    | .ok pages =>
      let st1 := ensureHeaderIfEmpty st defaultHeader
      let rowsData := rowsOf cfg pages
      let maxEdited := maxLastEdited pages
      let plan := batchUpsertPlan (readIdToRowIndex st1.data) rowsData
      if plan.updates.isEmpty then
        -- the upsert returns {0, 0} without calling the transport
        let newLastSync :=
          match maxEdited with
          | some mx => to_notion_iso mx
          | none => to_notion_iso now
        (.ok ⟨pages.length, 0, 0, newLastSync⟩,
          { st1 with checkpoint := newLastSync })
      else
        match batchApplied with
        | some k =>
            -- transport failure part-way through the batched write
            (.error "sheets_batch_update_failed",
              { st1 with data := applyWrites st1.data (plan.updates.take k) })
        | none =>
            let st2 := { st1 with data := applyWrites st1.data plan.updates }
            let newLastSync :=
              match maxEdited with
              | some mx => to_notion_iso mx
              | none => to_notion_iso now
            (.ok ⟨pages.length, plan.updated, plan.appended, newLastSync⟩,
              { st2 with checkpoint := newLastSync })

/-! ## Specification-side derived definitions

Observation functions used to state the claims; each is compared against
the source-derived functions above by a theorem. -/

/-- Index (0-based) of the last store row whose id cell is non-blank and
strips to `k` — the row `read_existing_id_to_row_index` ends up pointing
at for key `k`. -/
def lastKeyIdx (k : String) : Store → Option Nat
  | [] => none
  | r :: rest =>
      match lastKeyIdx k rest with
      | some i => some (i + 1)
      | none => if headKey r ≠ "" ∧ strTrim (headKey r) = k then some 0 else none

/-- The row position the final in-memory index assigns to a row's id. -/
def posOf (idx : Index) (r : Row) : Nat := (dictGet idx (headKey r)).getD 0

theorem dictGet_insert (d : Index) (k k' : String) (v : Nat) :
    dictGet (dictInsert d k v) k' = if k' = k then some v else dictGet d k' := by
  induction d with
  | nil =>
      by_cases h : k' = k
      · simp [dictInsert, dictGet, List.find?, h]
      · have hb : (k == k') = false := by simp [Ne.symm h]
        simp [dictInsert, dictGet, List.find?, h, hb]
  | cons p rest ih =>
      by_cases hp : p.1 = k
      · by_cases h : k' = k
        · simp [dictInsert, dictGet, List.find?, hp, h]
        · have hb : (k == k') = false := by simp [Ne.symm h]
          have hb2 : (p.1 == k') = false := by simp [hp, Ne.symm h]
          simp [dictInsert, dictGet, List.find?, hp, h, hb, hb2]
      · have hins : dictInsert (p :: rest) k v = p :: dictInsert rest k v := by
          simp [dictInsert, hp]
        by_cases hk' : p.1 = k'
        · subst hk'
          simp [hins, dictGet, List.find?, hp, if_neg hp]
        · simp only [hins, dictGet, List.find?] at *
          have hne : (p.1 == k') = false := by simp [hk']
          simp [hne] at *
          exact ih

theorem dictGet_insert_self (d : Index) (k : String) (v : Nat) :
    dictGet (dictInsert d k v) k = some v := by
  simp [dictGet_insert]

theorem dictGet_insert_ne (d : Index) (k k' : String) (v : Nat) (h : k' ≠ k) :
    dictGet (dictInsert d k v) k' = dictGet d k' := by
  simp [dictGet_insert, h]

theorem dictGet_mem {d : Index} {k : String} {p : Nat}
    (h : dictGet d k = some p) : (k, p) ∈ d := by
  unfold dictGet at h
  match hf : d.find? (fun q => q.1 == k) with
  | none => simp [hf] at h
  | some q =>
      have hq : q ∈ d := List.mem_of_find?_eq_some hf
      have hk : q.1 = k := by
        have := List.find?_some hf
        simpa using this
      simp [hf] at h
      have : q = (k, p) := by
        cases q
        simp_all
      rwa [this] at hq

theorem foldl_nat_max_init (d : Index) (a : Nat) :
    d.foldl (fun acc p => Nat.max acc p.2) a = Nat.max a (dictValuesMax d) := by
  induction d generalizing a with
  | nil => simp [dictValuesMax]
  | cons p rest ih =>
      simp only [dictValuesMax, List.foldl] at *
      rw [ih, ih (Nat.max 0 p.2)]
      simp [Nat.max_assoc]

theorem dictValuesMax_cons (p : String × Nat) (rest : Index) :
    dictValuesMax (p :: rest) = Nat.max p.2 (dictValuesMax rest) := by
  conv_lhs => simp only [dictValuesMax, List.foldl]
  rw [foldl_nat_max_init]
  simp [dictValuesMax]

theorem le_dictValuesMax {d : Index} {q : String × Nat} (h : q ∈ d) :
    q.2 ≤ dictValuesMax d := by
  induction d with
  | nil => simp at h
  | cons p rest ih =>
      rw [dictValuesMax_cons]
      rcases List.mem_cons.1 h with h' | h'
      · subst h'; exact Nat.le_max_left _ _
      · exact le_trans (ih h') (Nat.le_max_right _ _)

theorem lastKeyIdx_none {k : String} {s : Store}
    (h : lastKeyIdx k s = none) :
    ∀ (j : Nat) (r : Row), s[j]? = some r → ¬(headKey r ≠ "" ∧ strTrim (headKey r) = k) := by
  induction s with
  | nil => intro j r hj; simp at hj
  | cons r0 rest ih =>
      simp only [lastKeyIdx] at h
      match hr : lastKeyIdx k rest with
      | some j0 => rw [hr] at h; simp at h
      | none =>
          rw [hr] at h
          by_cases hp : headKey r0 ≠ "" ∧ strTrim (headKey r0) = k
          · simp [hp] at h
          · intro j r hj
            match j with
            | 0 => simp at hj; rw [← hj]; exact hp
            | j' + 1 => exact ih hr j' r (by simpa using hj)

theorem lastKeyIdx_some_last {k : String} {s : Store} {i : Nat}
    (h : lastKeyIdx k s = some i) :
    ∀ (j : Nat) (r : Row), i < j → s[j]? = some r →
      ¬(headKey r ≠ "" ∧ strTrim (headKey r) = k) := by
  induction s generalizing i with
  | nil => intro j r _ hj; simp at hj
  | cons r0 rest ih =>
      simp only [lastKeyIdx] at h
      match hr : lastKeyIdx k rest with
      | some j0 =>
          rw [hr] at h
          simp at h
          intro j r hij hj
          match j with
          | 0 => omega
          | j' + 1 =>
              exact ih hr j' r (by omega) (by simpa using hj)
      | none =>
          rw [hr] at h
          by_cases hp : headKey r0 ≠ "" ∧ strTrim (headKey r0) = k
          · simp [hp] at h
            intro j r hij hj
            match j with
            | 0 => omega
            | j' + 1 => exact lastKeyIdx_none hr j' r (by simpa using hj)
          · simp [hp] at h

theorem upsertStep_updates (st : UpsertState) (row : Row) :
    ∃ p, (upsertStep st row).updates = st.updates ++ [(p, row)] ∧
      dictGet (upsertStep st row).idToRow (headKey row) = some p := by
  match h : dictGet st.idToRow (headKey row) with
  | some r => exact ⟨r, by simp [upsertStep, h], by simp [upsertStep, h]⟩
  | none =>
      exact ⟨st.nextAppendRow, by simp [upsertStep, h],
        by simp [upsertStep, h, dictGet_insert_self]⟩

theorem upsertStep_idx_mono {st : UpsertState} {row : Row} {k : String} {p : Nat}
    (h : dictGet st.idToRow k = some p) :
    dictGet (upsertStep st row).idToRow k = some p := by
  match hd : dictGet st.idToRow (headKey row) with
  | some r => simp [upsertStep, hd]; exact h
  | none =>
      simp only [upsertStep, hd]
      have hne : k ≠ headKey row := by
        intro he; rw [he] at h; rw [h] at hd; cases hd
      rw [dictGet_insert_ne _ _ _ _ hne]
      exact h

theorem upsertLoop_idx_mono {st : UpsertState} {rows : List Row} {k : String} {p : Nat}
    (h : dictGet st.idToRow k = some p) :
    dictGet (upsertLoop st rows).idToRow k = some p := by
  induction rows generalizing st with
  | nil => exact h
  | cons row rest ih => exact ih (upsertStep_idx_mono h)

theorem upsertLoop_updates (st : UpsertState) (rows : List Row) :
    (upsertLoop st rows).updates =
      st.updates ++ rows.map (fun r => (posOf (upsertLoop st rows).idToRow r, r)) ∧
    ∀ r ∈ rows, (dictGet (upsertLoop st rows).idToRow (headKey r)).isSome := by
  induction rows generalizing st with
  | nil => simp [upsertLoop]
  | cons row rest ih =>
      obtain ⟨p, hupd, hget⟩ := upsertStep_updates st row
      obtain ⟨ih1, ih2⟩ := ih (upsertStep st row)
      have hfin : dictGet (upsertLoop (upsertStep st row) rest).idToRow (headKey row)
          = some p := upsertLoop_idx_mono hget
      constructor
      · show (upsertLoop (upsertStep st row) rest).updates = _
        rw [ih1, hupd]
        have hpos : posOf (upsertLoop (upsertStep st row) rest).idToRow row = p := by
          simp [posOf, hfin]
        show st.updates ++ [(p, row)] ++ _ =
          st.updates ++ (posOf (upsertLoop (upsertStep st row) rest).idToRow row, row)
            :: rest.map (fun r => (posOf (upsertLoop (upsertStep st row) rest).idToRow r, r))
        rw [hpos, List.append_assoc]
        rfl
      · intro r hr
        rcases List.mem_cons.1 hr with h | h
        · rw [h]
          show (dictGet (upsertLoop (upsertStep st row) rest).idToRow (headKey row)).isSome
          simp [hfin]
        · exact ih2 r h

theorem upsertLoop_counts (st : UpsertState) (rows : List Row) :
    (upsertLoop st rows).updated + (upsertLoop st rows).appended
      = st.updated + st.appended + rows.length := by
  induction rows generalizing st with
  | nil => simp [upsertLoop]
  | cons row rest ih =>
      have hstep : upsertLoop st (row :: rest) = upsertLoop (upsertStep st row) rest := rfl
      rw [hstep, ih]
      match h : dictGet st.idToRow (headKey row) with
      | some r => simp [upsertStep, h]; omega
      | none => simp [upsertStep, h]; omega

theorem upsertStep_next_mono (st : UpsertState) (row : Row) :
    st.nextAppendRow ≤ (upsertStep st row).nextAppendRow := by
  match h : dictGet st.idToRow (headKey row) with
  | some r => simp [upsertStep, h]
  | none => simp [upsertStep, h]

theorem upsertLoop_next_mono (st : UpsertState) (rows : List Row) :
    st.nextAppendRow ≤ (upsertLoop st rows).nextAppendRow := by
  induction rows generalizing st with
  | nil => exact le_refl _
  | cons row rest ih =>
      exact le_trans (upsertStep_next_mono st row) (ih (upsertStep st row))

theorem upsertStep_idx_new {st : UpsertState} {row : Row} {k : String} {p : Nat}
    (h : dictGet (upsertStep st row).idToRow k = some p) :
    dictGet st.idToRow k = some p ∨ (p = st.nextAppendRow ∧ k = headKey row) := by
  match hd : dictGet st.idToRow (headKey row) with
  | some r =>
      left
      simpa [upsertStep, hd] using h
  | none =>
      simp only [upsertStep, hd] at h
      rw [dictGet_insert] at h
      by_cases hk : k = headKey row
      · right
        rw [if_pos hk] at h
        exact ⟨(Option.some_injective _ h).symm, hk⟩
      · left
        rwa [if_neg hk] at h

theorem upsertLoop_idx_new {st : UpsertState} {rows : List Row} {k : String} {p : Nat}
    (h : dictGet (upsertLoop st rows).idToRow k = some p) :
    dictGet st.idToRow k = some p ∨
      (st.nextAppendRow ≤ p ∧ ∃ r ∈ rows, headKey r = k) := by
  induction rows generalizing st with
  | nil => left; exact h
  | cons row rest ih =>
      rcases @ih (upsertStep st row) h with h' | h'
      · rcases upsertStep_idx_new h' with h'' | h''
        · left; exact h''
        · right
          exact ⟨le_of_eq h''.1.symm, row, by simp, h''.2.symm⟩
      · right
        refine ⟨le_trans (upsertStep_next_mono st row) h'.1, ?_⟩
        obtain ⟨r, hr, hk⟩ := h'.2
        exact ⟨r, by simp [hr], hk⟩

theorem ensureHeader_checkpoint (st : SheetState) (header : List String) :
    (ensureHeaderIfEmpty st header).checkpoint = st.checkpoint := by
  unfold ensureHeaderIfEmpty
  split <;> rfl

/-- Auxiliary: prepending the empty string is the identity. -/
theorem str_nil_append (x : String) : "" ++ x = x := by
  cases x
  rfl

theorem upsertStep_pos_lb {st : UpsertState} {row : Row}
    (hb : ∀ (k : String) (p : Nat), dictGet st.idToRow k = some p → 2 ≤ p)
    (h2 : 2 ≤ st.nextAppendRow) :
    (∀ (k : String) (p : Nat), dictGet (upsertStep st row).idToRow k = some p → 2 ≤ p) ∧
      2 ≤ (upsertStep st row).nextAppendRow := by
  match hd : dictGet st.idToRow (headKey row) with
  | some r =>
      refine ⟨?_, ?_⟩ <;> simp only [upsertStep, hd]
      · exact hb
      · exact h2
  | none =>
      refine ⟨?_, ?_⟩ <;> simp only [upsertStep, hd]
      · intro k p hp
        rw [dictGet_insert] at hp
        by_cases hk : k = headKey row
        · rw [if_pos hk] at hp
          have : p = st.nextAppendRow := (Option.some_injective _ hp).symm
          omega
        · rw [if_neg hk] at hp
          exact hb k p hp
      · omega

theorem upsertLoop_pos_lb {st : UpsertState} {rows : List Row}
    (hb : ∀ (k : String) (p : Nat), dictGet st.idToRow k = some p → 2 ≤ p)
    (h2 : 2 ≤ st.nextAppendRow) :
    (∀ (k : String) (p : Nat), dictGet (upsertLoop st rows).idToRow k = some p → 2 ≤ p) ∧
      2 ≤ (upsertLoop st rows).nextAppendRow := by
  induction rows generalizing st with
  | nil => exact ⟨hb, h2⟩
  | cons row rest ih =>
      obtain ⟨hb', h2'⟩ := upsertStep_pos_lb hb h2
      exact ih hb' h2'

/-! ## The claims -/

/-- C1. Upsert determinism: with the existing index `{A: 2, B: 3}` and the
new batch `[C, A]`, C is appended at row 4 (the first free row after the
maximum known row), A is updated in place at row 2, and B is untouched
(its binding stays at 3 and no write targets row 3).  In general, a row
whose id is absent from the in-memory index is assigned `next_append_row`
and the index is updated as the row is assigned, and two rows of one
batch that share an id are written to the same row position. -/
theorem upsert_assignment (st : UpsertState) (row : Row) (idx : Index)
    (rows : List Row) (i j : Nat)
    (habsent : dictGet st.idToRow (headKey row) = none)
    (hij : i < j) (hj : j < rows.length)
    (hdup : (rows[i]?).map (fun r => headKey r) = (rows[j]?).map (fun r => headKey r)) :
    ((batchUpsertPlan [("A", 2), ("B", 3)] [["C"], ["A"]]).updates
        = [(4, ["C"]), (2, ["A"])] ∧
      (batchUpsertPlan [("A", 2), ("B", 3)] [["C"], ["A"]]).updated = 1 ∧
      (batchUpsertPlan [("A", 2), ("B", 3)] [["C"], ["A"]]).appended = 1 ∧
      dictGet (batchUpsertPlan [("A", 2), ("B", 3)] [["C"], ["A"]]).idToRow "B" = some 3 ∧
      ∀ w ∈ (batchUpsertPlan [("A", 2), ("B", 3)] [["C"], ["A"]]).updates, w.1 ≠ 3) ∧
    ((upsertStep st row).updates = st.updates ++ [(st.nextAppendRow, row)] ∧
      dictGet (upsertStep st row).idToRow (headKey row) = some st.nextAppendRow) ∧
    ((batchUpsertPlan idx rows).updates[i]?).map Prod.fst
      = ((batchUpsertPlan idx rows).updates[j]?).map Prod.fst := by
  refine ⟨by decide, ⟨?_, ?_⟩, ?_⟩
  · simp [upsertStep, habsent]
  · simp [upsertStep, habsent, dictGet_insert_self]
  · set st0 : UpsertState :=
      ⟨idx, if idx.isEmpty then 2 else dictValuesMax idx + 1, [], 0, 0⟩ with hst0
    have heq : batchUpsertPlan idx rows = upsertLoop st0 rows := rfl
    obtain ⟨hUPD, _⟩ := upsertLoop_updates st0 rows
    have hUPD' : (upsertLoop st0 rows).updates =
        rows.map (fun r => (posOf (upsertLoop st0 rows).idToRow r, r)) := by
      rw [hUPD]
      rfl
    rw [heq, hUPD']
    have hfun : ∀ k : Nat,
        (((rows.map (fun r => (posOf (upsertLoop st0 rows).idToRow r, r)))[k]?).map Prod.fst)
          = ((rows[k]?).map (fun r => headKey r)).map
              (fun x => (dictGet (upsertLoop st0 rows).idToRow x).getD 0) := by
      intro k
      rw [List.getElem?_map]
      cases rows[k]? <;> simp [posOf]
    rw [hfun i, hfun j, hdup]

/-- C1 witness: an empty index and the batch `[[X], [X]]`; both occurrences
of X resolve to the same row position, and an absent id takes the next
append row. -/
theorem upsert_assignment_witness :
    ((batchUpsertPlan [("A", 2), ("B", 3)] [["C"], ["A"]]).updates
        = [(4, ["C"]), (2, ["A"])] ∧
      (batchUpsertPlan [("A", 2), ("B", 3)] [["C"], ["A"]]).updated = 1 ∧
      (batchUpsertPlan [("A", 2), ("B", 3)] [["C"], ["A"]]).appended = 1 ∧
      dictGet (batchUpsertPlan [("A", 2), ("B", 3)] [["C"], ["A"]]).idToRow "B" = some 3 ∧
      ∀ w ∈ (batchUpsertPlan [("A", 2), ("B", 3)] [["C"], ["A"]]).updates, w.1 ≠ 3) ∧
    ((upsertStep ⟨[], 2, [], 0, 0⟩ ["X"]).updates = [] ++ [(2, ["X"])] ∧
      dictGet (upsertStep ⟨[], 2, [], 0, 0⟩ ["X"]).idToRow (headKey ["X"]) = some 2) ∧
    ((batchUpsertPlan [] [["X"], ["X"]]).updates[0]?).map Prod.fst
      = ((batchUpsertPlan [] [["X"], ["X"]]).updates[1]?).map Prod.fst :=
  upsert_assignment ⟨[], 2, [], 0, 0⟩ ["X"] [] [["X"], ["X"]] 0 1
    (by decide) (by decide) (by decide) (by decide)

/-- C10. Write shape: the upsert emits exactly one single-row range write
per input row (duplicates included), `updated + appended` equals the
number of input rows, and every emitted range is
`{sheet}!A{r}:{last_col}{r}` with `last_col` the header's last column and
`r ≥ 2` — provided the index read off the sheet maps only to data rows
(positions at least 2), which `read_existing_id_to_row_index` guarantees. -/
theorem upsert_write_shape (idx : Index) (rows : List Row)
    (header : List String) (sheetQ : String) (k : Nat)
    (hidx : ∀ q ∈ idx, 2 ≤ q.2) (hk : k < rows.length) :
    (batchUpsertPlan idx rows).updates.length = rows.length ∧
    (batchUpsertPlan idx rows).updated + (batchUpsertPlan idx rows).appended
      = rows.length ∧
    ∃ p row, (batchUpsertPlan idx rows).updates[k]? = some (p, row) ∧
      rows[k]? = some row ∧ 2 ≤ p ∧
      (planRanges sheetQ (col_to_a1 header.length) (batchUpsertPlan idx rows).updates)[k]?
        = some (sheetQ ++ "!A" ++ toString p ++ ":" ++ col_to_a1 header.length
            ++ toString p, row) := by
  set st0 : UpsertState :=
    ⟨idx, if idx.isEmpty then 2 else dictValuesMax idx + 1, [], 0, 0⟩ with hst0
  have heq : batchUpsertPlan idx rows = upsertLoop st0 rows := rfl
  obtain ⟨hUPD, hSome⟩ := upsertLoop_updates st0 rows
  have hUPD' : (upsertLoop st0 rows).updates =
      rows.map (fun r => (posOf (upsertLoop st0 rows).idToRow r, r)) := by
    rw [hUPD]
    rfl
  have hlb0 : ∀ (key : String) (p : Nat), dictGet st0.idToRow key = some p → 2 ≤ p := by
    intro key p hp
    exact hidx _ (dictGet_mem hp)
  have h2n : 2 ≤ st0.nextAppendRow := by
    show 2 ≤ if idx.isEmpty then 2 else dictValuesMax idx + 1
    match hidxc : idx with
    | [] => simp
    | q :: rest =>
        have hq2 : 2 ≤ q.2 := hidx q (by simp)
        have hle : q.2 ≤ dictValuesMax (q :: rest) := le_dictValuesMax (by simp)
        simp only [List.isEmpty_cons, Bool.false_eq_true, if_false]
        omega
  obtain ⟨hlbF, _⟩ := @upsertLoop_pos_lb st0 rows hlb0 h2n
  refine ⟨?_, ?_, ?_⟩
  · rw [heq, hUPD']
    simp
  · rw [heq]
    have := upsertLoop_counts st0 rows
    simpa using this
  · have hrk : rows[k]? = some (rows.get ⟨k, hk⟩) := List.getElem?_eq_getElem hk
    set rk : Row := rows.get ⟨k, hk⟩ with hrkdef
    rw [heq, hUPD']
    have hmem : rk ∈ rows := List.getElem?_mem hrk
    obtain ⟨q, hq⟩ := Option.isSome_iff_exists.1 (hSome rk hmem)
    refine ⟨posOf (upsertLoop st0 rows).idToRow rk, rk, ?_, hrk, ?_, ?_⟩
    · rw [List.getElem?_map, hrk]
      rfl
    · have : posOf (upsertLoop st0 rows).idToRow rk = q := by simp [posOf, hq]
      rw [this]
      exact hlbF _ _ hq
    · unfold planRanges
      rw [List.getElem?_map, List.getElem?_map, hrk]
      rfl

/-- C10 witness: a one-entry index and a two-row batch against a
three-column header. -/
theorem upsert_write_shape_witness :
    (batchUpsertPlan [("A", 2)] [["B"], ["A"]]).updates.length = [["B"], ["A"]].length ∧
    (batchUpsertPlan [("A", 2)] [["B"], ["A"]]).updated
        + (batchUpsertPlan [("A", 2)] [["B"], ["A"]]).appended = [["B"], ["A"]].length ∧
    ∃ p row, (batchUpsertPlan [("A", 2)] [["B"], ["A"]]).updates[0]? = some (p, row) ∧
      [["B"], ["A"]][0]? = some row ∧ 2 ≤ p ∧
      (planRanges "Raw" (col_to_a1 (["a", "b", "c"] : List String).length)
          (batchUpsertPlan [("A", 2)] [["B"], ["A"]]).updates)[0]?
        = some ("Raw" ++ "!A" ++ toString p ++ ":"
            ++ col_to_a1 (["a", "b", "c"] : List String).length ++ toString p, row) :=
  upsert_write_shape [("A", 2)] [["B"], ["A"]] ["a", "b", "c"] "Raw" 0
    (by decide) (by decide)

/-- C6. A failed run never advances the checkpoint: whenever the handler
re-raises — configuration loading, the fetch, or the batched upsert
failing — the persisted checkpoint cell is exactly what it was before the
run (the checkpoint write happens only after a fully successful upsert). -/
theorem failed_run_checkpoint (st : SheetState) (cfgRes : Except String FieldConfig)
    (fetchRes : Except String (List Page)) (b : Option Nat) (now : Int) (e : String)
    (he : (lambda_handler st cfgRes fetchRes b now).1 = .error e) :
    (lambda_handler st cfgRes fetchRes b now).2.checkpoint = st.checkpoint := by
  match cfgRes with
  | .error e' => rfl
  | .ok cfg =>
    match fetchRes with
    | .error e' => rfl
    | .ok pages =>
        unfold lambda_handler at he ⊢
        by_cases hempty : (batchUpsertPlan
            (readIdToRowIndex (ensureHeaderIfEmpty st defaultHeader).data)
            (rowsOf cfg pages)).updates.isEmpty
        · simp [hempty] at he
        · simp only [hempty, Bool.false_eq_true, if_false] at he ⊢
          match b with
          | none => simp at he
          | some k => exact ensureHeader_checkpoint st defaultHeader

/-- C6 witness: a missing required environment variable aborts before any
write; the checkpoint cell keeps its prior value. -/
theorem failed_run_checkpoint_witness :
    (lambda_handler ⟨"cp0", [], []⟩ (.error "Missing env var: NOTION_API_TOKEN")
        (.ok []) none 0).2.checkpoint = "cp0" :=
  failed_run_checkpoint ⟨"cp0", [], []⟩ (.error "Missing env var: NOTION_API_TOKEN")
    (.ok []) none 0 "Missing env var: NOTION_API_TOKEN" (by rfl)

/-- C7. Row transformer: exactly one row per fetched record, in input
order with no re-sorting and no row dropped for empty field values (the
length is always the page count), the first cell of each row is that
record's id, transformation distributes over page concatenation
(page-then-in-page order), and 120 records yield exactly 120 rows. -/
theorem transform_row_per_record (cfg : FieldConfig) (pages ps qs : List Page) (i : Nat) :
    (rowsOf cfg pages).length = pages.length ∧
    ((rowsOf cfg pages)[i]?).map (fun row => headKey row)
      = (pages[i]?).map (fun p => p.id) ∧
    rowsOf cfg (ps ++ qs) = rowsOf cfg ps ++ rowsOf cfg qs ∧
    (rowsOf cfg ((List.range 120).map (fun n => ⟨toString n, "", "", []⟩))).length = 120 := by
  refine ⟨by simp [rowsOf], ?_, by simp [rowsOf], by simp [rowsOf]⟩
  unfold rowsOf
  rw [List.getElem?_map]
  cases pages[i]? <;> rfl

/-- C8 counterexample: for the multi-select value
`[{name: "a"}, {name: ""}, {name: "b"}]` the extractor returns `"a, b"`,
not the claimed join of all selected option names `"a, , b"` — options
with an empty (or missing) name are filtered out before joining. -/
theorem multi_select_join_cex :
    extract_text_property
        [("Tags", PropertyValue.multi_select [some "a", some "", some "b"])] "Tags"
      = "a, b" ∧
    String.intercalate ", " ["a", "", "b"] = "a, , b" ∧
    ("a, b" : String) ≠ "a, , b" := by decide

/-- C8 (amended). For every multi_select property value, the extractor
returns the present, non-empty option names joined with `", "` in their
given order (options with a missing or empty name are skipped). -/
theorem multi_select_join (props : Properties) (name : String)
    (arr : List (Option String))
    (h : propGet props name = some (PropertyValue.multi_select arr)) :
    extract_text_property props name
      = String.intercalate ", " ((arr.filterMap id).filter (fun n => n ≠ "")) := by
  have hlist : ∀ l : List (Option String),
      l.filterMap (fun o => o.bind (fun n => if n = "" then none else some n))
        = (l.filterMap id).filter (fun n => n ≠ "") := by
    intro l
    induction l with
    | nil => rfl
    | cons o rest ih =>
        cases o with
        | none => simpa using ih
        | some n =>
            by_cases hn : n = ""
            · simp [List.filterMap_cons, hn, ih]
            · simp [List.filterMap_cons, hn, ih]
  unfold extract_text_property
  rw [h]
  show ", ".intercalate
      (List.filterMap (fun o => o.bind fun n => if n = "" then none else some n) arr) = _
  rw [hlist]

/-- C8 witness: a multi-select with one empty-named option. -/
theorem multi_select_join_witness :
    extract_text_property
        [("Tags", PropertyValue.multi_select [some "a", some "", some "b"])] "Tags"
      = String.intercalate ", "
          (([some "a", some "", some "b"].filterMap id).filter (fun n => n ≠ "")) :=
  multi_select_join [("Tags", PropertyValue.multi_select [some "a", some "", some "b"])]
    "Tags" [some "a", some "", some "b"] (by decide)

/-- C9. For a date property whose end is present and non-empty but whose
start is absent or empty, the extractor returns a leading `" -> "`
followed by the end value — not the empty string. -/
theorem date_end_only (props : Properties) (name : String) (s e : Option String)
    (h : propGet props name = some (PropertyValue.date (some (s, e))))
    (hs : s.getD "" = "") (he : e.getD "" ≠ "") :
    extract_text_property props name = " -> " ++ e.getD "" := by
  unfold extract_text_property
  rw [h]
  simp only [hs, if_pos he]
  rw [str_nil_append]

/-- C9 witness: a date value `{start: null, end: "2025-01-05"}`. -/
theorem date_end_only_witness :
    extract_text_property [("D", PropertyValue.date (some (none, some "2025-01-05")))] "D"
      = " -> " ++ (some "2025-01-05").getD "" :=
  date_end_only [("D", PropertyValue.date (some (none, some "2025-01-05")))] "D"
    none (some "2025-01-05") (by decide) (by decide) (by decide)

end NotionSync
